import Mathlib

/-!
Shallow embedding of the cluster-state aggregation core
(`src/mgr/ClusterState.cc`): the merge engine (`ingest_pgstats`,
`update_delta_stats`, `notify_osdmap`) over the versioned `PGMap`
aggregate, and the `dump_osd_network` latency-ranking command
(`asok_command` and `ClusterSocketHook::call`).

C++ `std::map` / `std::set` state is embedded as association lists with
explicit insert-or-overwrite; machine integers are `Nat` / `Int` (no
overflow is exercised by the modelled paths); the `double` configuration
ratio is embedded as `Rat` with explicit truncation toward zero for the
`double`-to-`int64_t` assignment.
-/

/-- Lookup in an association list (first match), embedding `std::map::find`. -/
def mapFind? {α β : Type} [DecidableEq α] (k : α) : List (α × β) → Option β
  | [] => none
  | p :: t => if p.1 = k then some p.2 else mapFind? k t

/-- Insert-or-overwrite in an association list, embedding `std::map::operator[]`
assignment: the key holds exactly the new value afterwards. -/
def mapInsert {α β : Type} [DecidableEq α] (k : α) (v : β) (m : List (α × β)) :
    List (α × β) :=
  (k, v) :: m.filter (fun p => p.1 ≠ k)

/-- Fold a batch of keyed updates into a base map, later updates overwriting
earlier ones (the order a `std::map` of staged updates is applied in). -/
def applyUpdates {α β : Type} [DecidableEq α] (upd : List (α × β))
    (base : List (α × β)) : List (α × β) :=
  upd.foldl (fun m p => mapInsert p.1 p.2 m) base

/-- PG identifier (`pg_t`): owning pool id plus shard seed.  Only the pool
component is inspected by the merge engine (`pgid.pool()`). -/
structure PGT where
  pool : Nat
  seed : Nat
  deriving DecidableEq

/-- Per-PG stats record (`pg_stat_t`) as far as the merge engine reads it:
the recency fields `reported_epoch` / `reported_seq`, with the remaining
fields (state, counters, ...) abstracted into `payload`. -/
structure PGStat where
  reported_epoch : Nat
  reported_seq : Nat
  payload : Nat
  deriving DecidableEq

/-- Modelled from the spec: `pg_stat_t::get_version_pair` (declared outside
the available sources) returns the recency key
`(reported_epoch, reported_sequence)`. -/
def PGStat.get_version_pair (st : PGStat) : Nat × Nat :=
  (st.reported_epoch, st.reported_seq)

/-- Modelled from the spec: the `>` comparison on version-pairs is the
lexicographic order on `(reported_epoch, reported_sequence)` ("Ordering of
`(reported_epoch, reported_sequence)` defines recency"), i.e. `std::pair`
`operator>`. -/
def vpGt (a b : Nat × Nat) : Bool :=
  decide (b.1 < a.1) || (decide (a.1 = b.1) && decide (b.2 < a.2))

/-- One window triple of heartbeat samples (index 0/1/2 = 1min/5min/15min). -/
structure PingTimes where
  pt0 : Nat
  pt1 : Nat
  pt2 : Nat
  deriving DecidableEq

/-- Per-peer heartbeat record (`osd_stat_t`'s `hb_pingtime` value type):
rolling averages, minima, maxima and last sample for the back and front
interfaces. -/
structure PeerPing where
  back_pingtime : PingTimes
  back_min : PingTimes
  back_max : PingTimes
  back_last : Nat
  front_pingtime : PingTimes
  front_min : PingTimes
  front_max : PingTimes
  front_last : Nat
  deriving DecidableEq

/-- Per-OSD stats record (`osd_stat_t`) as far as this file reads it: the
per-peer heartbeat map, with the remaining fields abstracted into
`payload`. -/
structure OsdStat where
  hb_pingtime : List (Int × PeerPing)
  payload : Nat
  deriving DecidableEq

/-- The pending delta (`PGMap::Incremental`) as far as the merge engine
fills it: a target version and the staged per-PG / per-OSD updates. -/
structure Incremental where
  version : Nat := 0
  pg_stat_updates : List (PGT × PGStat) := []
  osd_stat_updates : List (Int × OsdStat) := []
  osd_epochs : List (Int × Nat) := []
  deriving DecidableEq

/-- The versioned aggregate (`PGMap`): version plus the per-PG and per-OSD
stats maps. -/
structure PGMap where
  version : Nat := 0
  pg_stat : List (PGT × PGStat) := []
  osd_stat : List (Int × OsdStat) := []
  osd_epochs : List (Int × Nat) := []
  deriving DecidableEq

/-- The `ClusterState` fields driven by the merge engine: the existence
filter `existing_pools`, the aggregate `pg_map`, and the pending delta
`pending_inc`. -/
structure ClusterState where
  existing_pools : List Nat := []
  pg_map : PGMap := {}
  pending_inc : Incremental := {}
  deriving DecidableEq

/-- The freshly constructed state (`ClusterState::ClusterState` leaves the
filter, aggregate and delta default-initialized, i.e. empty). -/
def ClusterState.init : ClusterState := {}

/-- A stats report (`MPGStats`): source OSD id (`get_orig_source().num()`),
epoch, the reporter-level summary `osd_stat`, and the per-PG entries. -/
structure MPGStats where
  from_osd : Int
  epoch : Nat
  osd_stat : OsdStat
  pg_stat : List (PGT × PGStat)
  deriving DecidableEq

/-- A topology snapshot (`OSDMap`) as far as this file reads it:
`get_pools()`, a map from pool id to the (abstracted) pool record. -/
structure OSDMap where
  pools : List (Nat × Nat)
  deriving DecidableEq

/-- Modelled from the spec: `PGMap::Incremental::update_stat` (defined
outside the available sources) stages the reporter-level summary into the
delta keyed by the reporter id, together with its epoch ("Unconditionally
stage `reporter_summary` into `staged_reporter_updates` keyed by
`reporter_id`; last write in a cycle wins"). -/
def Incremental.update_stat (inc : Incremental) (from_osd : Int) (epoch : Nat)
    (stat : OsdStat) : Incremental :=
  { inc with
    osd_stat_updates := mapInsert from_osd stat inc.osd_stat_updates,
    osd_epochs := mapInsert from_osd epoch inc.osd_epochs }

/-- One iteration of the `ingest_pgstats` per-PG loop: drop the entry when
its pool is not in `existing_pools`; drop it when the aggregate already has
a strictly greater version-pair for that PG; otherwise stage it into
`pending_inc.pg_stat_updates`. -/
def ingest_entry (s : ClusterState) (p : PGT × PGStat) : ClusterState :=
  if s.existing_pools.count p.1.pool = 0 then s
  else
    match mapFind? p.1 s.pg_map.pg_stat with
    | some q =>
      if vpGt q.get_version_pair p.2.get_version_pair then s
      else { s with pending_inc := { s.pending_inc with
               pg_stat_updates := mapInsert p.1 p.2 s.pending_inc.pg_stat_updates } }
    | none => { s with pending_inc := { s.pending_inc with
                  pg_stat_updates := mapInsert p.1 p.2 s.pending_inc.pg_stat_updates } }

/-- Embedding of `ClusterState::ingest_pgstats`: stage the reporter summary
unconditionally via `update_stat`, then run the per-PG loop. -/
def ingest_pgstats (s : ClusterState) (stats : MPGStats) : ClusterState :=
  let s1 := { s with pending_inc :=
                s.pending_inc.update_stat stats.from_osd stats.epoch stats.osd_stat }
  stats.pg_stat.foldl ingest_entry s1

/-- Modelled from the spec: `PGMap::apply_incremental` (defined outside the
available sources) folds every staged per-PG and per-OSD update into the
aggregate and sets `aggregate.version` to the delta's target version
("Folds every staged resource/reporter update into `VersionedAggregate`,
sets `aggregate.version = target_version`"). -/
def PGMap.apply_incremental (m : PGMap) (inc : Incremental) : PGMap :=
  { version := inc.version,
    pg_stat := applyUpdates inc.pg_stat_updates m.pg_stat,
    osd_stat := applyUpdates inc.osd_stat_updates m.osd_stat,
    osd_epochs := applyUpdates inc.osd_epochs m.osd_epochs }

/-- Embedding of `ClusterState::update_delta_stats`: set the delta's target version to
`pg_map.version + 1`, apply it to the aggregate, and replace it with a
fresh empty delta. -/
def update_delta_stats (s : ClusterState) : ClusterState :=
  { s with
    pg_map := s.pg_map.apply_incremental
      { s.pending_inc with version := s.pg_map.version + 1 },
    pending_inc := {} }

/-- The type of the two opaque topology-diff collaborators
(`PGMapUpdater::check_osd_map` / `PGMapUpdater::check_down_pgs`): given the
snapshot and the current aggregate, they rewrite the staged per-PG updates
of the pending delta. -/
def TopoCheck : Type := OSDMap → PGMap → List (PGT × PGStat) → List (PGT × PGStat)

/-- Embedding of `ClusterState::notify_osdmap`: set the delta's target version, let
`check_osd_map` stage updates, rebuild `existing_pools` from the
snapshot's pools, let `check_down_pgs` stage updates, then apply the delta
to the aggregate and reset it.  Note the apply step happens inside this
function. -/
def notify_osdmap (check_osd_map check_down_pgs : TopoCheck)
    (s : ClusterState) (osd_map : OSDMap) : ClusterState :=
  let inc1 : Incremental := { s.pending_inc with version := s.pg_map.version + 1 }
  let inc2 : Incremental := { inc1 with
    pg_stat_updates := check_osd_map osd_map s.pg_map inc1.pg_stat_updates }
  let pools := osd_map.pools.map Prod.fst
  let inc3 : Incremental := { inc2 with
    pg_stat_updates := check_down_pgs osd_map s.pg_map inc2.pg_stat_updates }
  { existing_pools := pools,
    pg_map := s.pg_map.apply_incremental inc3,
    pending_inc := {} }

/-- One merge-engine operation, for stating sequence-level properties. -/
inductive Op where
  | stats (r : MPGStats)
  | topo (m : OSDMap)
  | commit
  deriving DecidableEq

/-- Run one operation against the cluster state. -/
def stepOp (f g : TopoCheck) (s : ClusterState) : Op → ClusterState
  | .stats r => ingest_pgstats s r
  | .topo m => notify_osdmap f g s m
  | .commit => update_delta_stats s

/-- Run a sequence of merge-engine operations. -/
def runOps (f g : TopoCheck) (s : ClusterState) (ops : List Op) : ClusterState :=
  ops.foldl (stepOp f g) s

/-- The committed-delta count of an operation sequence: `notify_osdmap` and
`update_delta_stats` each apply exactly one delta, `ingest_pgstats` none. -/
def countCommits (ops : List Op) : Nat :=
  (ops.filter (fun op => match op with | .stats _ => false | _ => true)).length

/-- The local `mgr_ping_time_t` struct of `asok_command`. -/
structure MgrPingTime where
  pingtime : Nat
  from_osd : Int
  to_osd : Int
  back : Bool
  times : PingTimes
  mins : PingTimes
  maxs : PingTimes
  last : Nat
  deriving DecidableEq

/-- Embedding of `mgr_ping_time_t::operator<`: ascending pingtime, then ascending
`from`, then ascending `to`; when all three agree the result is the LEFT
operand's `back` flag. -/
def pingLt (a rhs : MgrPingTime) : Bool :=
  if a.pingtime < rhs.pingtime then true
  else if a.pingtime > rhs.pingtime then false
  else if a.from_osd < rhs.from_osd then true
  else if a.from_osd > rhs.from_osd then false
  else if a.to_osd < rhs.to_osd then true
  else if a.to_osd > rhs.to_osd then false
  else a.back

/-- The back-interface rank key: max of the three rolling averages
(`item.pingtime = max(max(back[0], back[1]), back[2])`). -/
def backPing (pp : PeerPing) : Nat :=
  max (max pp.back_pingtime.pt0 pp.back_pingtime.pt1) pp.back_pingtime.pt2

/-- The front-interface rank key. -/
def frontPing (pp : PeerPing) : Nat :=
  max (max pp.front_pingtime.pt0 pp.front_pingtime.pt1) pp.front_pingtime.pt2

/-- The back-interface entry built for reporter pair `(i, j)`. -/
def mkBackItem (i j : Int) (pp : PeerPing) : MgrPingTime :=
  { pingtime := backPing pp, from_osd := i, to_osd := j, back := true,
    times := pp.back_pingtime, mins := pp.back_min, maxs := pp.back_max,
    last := pp.back_last }

/-- The front-interface entry built for reporter pair `(i, j)`. -/
def mkFrontItem (i j : Int) (pp : PeerPing) : MgrPingTime :=
  { pingtime := frontPing pp, from_osd := i, to_osd := j, back := false,
    times := pp.front_pingtime, mins := pp.front_min, maxs := pp.front_max,
    last := pp.front_last }

/-- The entries emplaced for one `hb_pingtime` element: the back entry
whenever `!value || pingtime >= value`; then — only if `front_last != 0` —
the front entry under the same threshold test. -/
def peerEntries (i : Int) (value : Int) (j : Int) (pp : PeerPing) :
    List MgrPingTime :=
  (if value = 0 ∨ value ≤ (backPing pp : Int) then [mkBackItem i j pp] else []) ++
  (if pp.front_last = 0 then []
   else if value = 0 ∨ value ≤ (frontPing pp : Int) then [mkFrontItem i j pp]
   else [])

/-- All entries emplaced by the double loop over `pg_map.osd_stat` and each
OSD's `hb_pingtime`, in loop order. -/
def collectItems (osd_stat : List (Int × OsdStat)) (value : Int) :
    List MgrPingTime :=
  (osd_stat.map (fun p =>
    (p.2.hb_pingtime.map (fun q => peerEntries p.1 value q.1 q.2)).flatten)).flatten

/-- Ordered insertion embedding `std::set<mgr_ping_time_t>::emplace`: place
the new element before the first strictly greater one; an equivalent
element (neither compares less) leaves the set unchanged. -/
def insertSorted (e : MgrPingTime) : List MgrPingTime → List MgrPingTime
  | [] => [e]
  | x :: xs =>
    if pingLt e x then e :: x :: xs
    else if pingLt x e then x :: insertSorted e xs
    else x :: xs

/-- The sorted set after emplacing every collected entry in loop order. -/
def buildSorted (l : List MgrPingTime) : List MgrPingTime :=
  l.foldl (fun acc e => insertSorted e acc) []

/-- The emitted entry sequence of `dump_osd_network`: the sorted set is
iterated through `boost::adaptors::reverse`. -/
def dump_entries (osd_stat : List (Int × OsdStat)) (value : Int) :
    List MgrPingTime :=
  (buildSorted (collectItems osd_stat value)).reverse

/-- The configuration values read by `asok_command`: the warning threshold
(`uint64`), the slow-ping fraction (a `double`, embedded as `Rat`; the
config key ends in `_ratio`), and the heartbeat grace (`int64`). -/
structure DumpConfig where
  mon_warn_on_slow_ping_time : Nat
  mon_warn_on_slow_ping_frac : Rat
  osd_heartbeat_grace : Int
  deriving DecidableEq

/-- The state of the optional `value` command parameter as `cmd_getval`
sees it: absent, a parsed integer, or present with the wrong type. -/
inductive ThresholdArg where
  | absent
  | given (v : Int)
  | badtype (msg : String)
  deriving DecidableEq

/-- Modelled from the spec: `cmd_getval` (defined outside the available
sources) returns false when the parameter is absent, yields the integer
when present, and raises `bad_cmd_get` on a bad argument (the spec's
"exception-based control flow around command parsing (catching a 'bad
argument' condition)"). -/
def cmd_getval_int (arg : ThresholdArg) : Except String (Option Int) :=
  match arg with
  | .absent => .ok none
  | .given v => .ok (some v)
  | .badtype msg => .error msg

/-- Truncation of a rational toward zero, embedding the C++ `double` to
`int64_t` conversion. -/
def ratTrunc (q : Rat) : Int :=
  if q < 0 then Int.ceil q else Int.floor q

/-- The defaulted threshold when the parameter is absent:
`mon_warn_on_slow_ping_time`, and when that is zero,
`osd_heartbeat_grace * (1000000 * ratio)` (seconds of grace to
microseconds at the configured fraction). -/
def defaultThreshold (cfg : DumpConfig) : Int :=
  let v : Int := (cfg.mon_warn_on_slow_ping_time : Int)
  if v = 0 then
    ratTrunc ((cfg.osd_heartbeat_grace : Rat) *
      (1000000 * cfg.mon_warn_on_slow_ping_frac))
  else v

/-- The structured document produced by `dump_osd_network`: the threshold
used and the ordered entry list. -/
structure NetworkReport where
  threshold : Int
  entries : List MgrPingTime
  deriving DecidableEq

/-- Embedding of `ClusterState::asok_command` for `dump_osd_network`: resolve the
threshold (absent parameter defaults, negative clamps to zero), then emit
the report; a `bad_cmd_get` from `cmd_getval` propagates out. -/
def asok_dump_osd_network (cfg : DumpConfig) (arg : ThresholdArg)
    (osd_stat : List (Int × OsdStat)) : Except String NetworkReport := do
  let parsed ← cmd_getval_int arg
  let value : Int := match parsed with
    | some v => v
    | none => defaultThreshold cfg
  let value := if value < 0 then 0 else value
  pure { threshold := value, entries := dump_entries osd_stat value }

/-- What `ClusterSocketHook::call` appends to the output buffer: the
rendered report, or the exception text when `bad_cmd_get` was caught. -/
inductive HookOutput where
  | report (r : NetworkReport)
  | errtext (msg : String)
  deriving DecidableEq

/-- Whether the hook output is a rendered network report. -/
def HookOutput.isReport : HookOutput → Bool
  | .report _ => true
  | .errtext _ => false

/-- Embedding of `ClusterSocketHook::call`: run `asok_command`, catching `bad_cmd_get`
by appending `e.what()` instead and still returning `true`. -/
def clusterSocketHook_call (cfg : DumpConfig) (arg : ThresholdArg)
    (osd_stat : List (Int × OsdStat)) : HookOutput × Bool :=
  match asok_dump_osd_network cfg arg osd_stat with
  | .ok r => (.report r, true)
  | .error msg => (.errtext msg, true)

/-- The concrete starting state for the C1 counterexample: pool 0 exists
and the aggregate holds PG (0,0) at version-pair (5,1). -/
def sC1 : ClusterState :=
  { existing_pools := [0],
    pg_map := { version := 3,
                pg_stat := [(⟨0, 0⟩, ⟨5, 1, 0⟩)],
                osd_stat := [], osd_epochs := [] },
    pending_inc := {} }

/-- The concrete report for the C1 counterexample: the same PG at the SAME
version-pair (5,1), with different payload. -/
def rC1 : MPGStats :=
  { from_osd := 1, epoch := 9, osd_stat := ⟨[], 0⟩,
    pg_stat := [(⟨0, 0⟩, ⟨5, 1, 7⟩)] }

/-- A trivial concrete instantiation of the opaque topology-diff
collaborators, used by concrete evaluations. -/
def topoCheckId : TopoCheck := fun _ _ upd => upd

/-- The concrete starting state for the C5 counterexample: version 0, a
nonempty staged reporter update in the pending delta. -/
def sC5 : ClusterState :=
  { existing_pools := [],
    pg_map := {},
    pending_inc := { version := 0, pg_stat_updates := [],
                     osd_stat_updates := [(3, ⟨[], 5⟩)],
                     osd_epochs := [(3, 2)] } }

/-- The concrete snapshot for the C5 counterexample. -/
def mC5 : OSDMap := { pools := [(1, 0)] }

/-- The concrete starting state for the C2 counterexample: pool 0 exists,
aggregate and delta empty. -/
def sC2 : ClusterState :=
  { existing_pools := [0], pg_map := {}, pending_inc := {} }

/-- The newer report for PG (0,3): version-pair (5,2). -/
def raC2 : MPGStats :=
  { from_osd := 1, epoch := 5, osd_stat := ⟨[], 0⟩,
    pg_stat := [(⟨0, 3⟩, ⟨5, 2, 1⟩)] }

/-- The older report for PG (0,3): version-pair (5,1). -/
def rbC2 : MPGStats :=
  { from_osd := 2, epoch := 5, osd_stat := ⟨[], 0⟩,
    pg_stat := [(⟨0, 3⟩, ⟨5, 1, 2⟩)] }

/-- The peer record for the C6 counterexample: equal back windows, front
interface never exercised. -/
def ppC6 : PeerPing :=
  { back_pingtime := ⟨7, 7, 7⟩, back_min := ⟨1, 1, 1⟩,
    back_max := ⟨9, 9, 9⟩, back_last := 4,
    front_pingtime := ⟨0, 0, 0⟩, front_min := ⟨0, 0, 0⟩,
    front_max := ⟨0, 0, 0⟩, front_last := 0 }

/-- The aggregate per-OSD map for the C6 counterexample: OSDs 1 and 2 both
report peer 5 with identical windows, producing two entries that tie on
the rank key. -/
def osC6 : List (Int × OsdStat) :=
  [(1, ⟨[(5, ppC6)], 0⟩), (2, ⟨[(5, ppC6)], 0⟩)]

/-- The peer record for the C7 witness: back last-sample is the zero
sentinel, front was exercised. -/
def ppC7 : PeerPing :=
  { back_pingtime := ⟨3, 2, 1⟩, back_min := ⟨1, 1, 1⟩,
    back_max := ⟨3, 3, 3⟩, back_last := 0,
    front_pingtime := ⟨6, 5, 4⟩, front_min := ⟨4, 4, 4⟩,
    front_max := ⟨6, 6, 6⟩, front_last := 9 }

/-- The configuration for the C8 counterexample and witness: warning
threshold unset, fraction 1/20, grace 20. -/
def cfgC8 : DumpConfig :=
  { mon_warn_on_slow_ping_time := 0,
    mon_warn_on_slow_ping_frac := 1/20,
    osd_heartbeat_grace := 20 }

/-! ## Theorems -/

theorem mapFind?_mapInsert_self {α β : Type} [DecidableEq α] (k : α) (v : β)
    (m : List (α × β)) : mapFind? k (mapInsert k v m) = some v := by
  simp [mapInsert, mapFind?]

theorem mapFind?_filter_ne {α β : Type} [DecidableEq α] {k k' : α}
    (m : List (α × β)) (h : k' ≠ k) :
    mapFind? k (m.filter (fun p => p.1 ≠ k')) = mapFind? k m := by
  induction m with
  | nil => rfl
  | cons p t ih =>
    obtain ⟨a, b⟩ := p
    simp only [ne_eq, decide_not] at ih ⊢
    by_cases hp : a = k'
    · subst hp
      simp [mapFind?, h, ih]
    · by_cases hk : a = k <;> simp [mapFind?, hp, hk, Ne.symm h, ih]

theorem mapFind?_mapInsert_ne {α β : Type} [DecidableEq α] {k k' : α} (v : β)
    (m : List (α × β)) (h : k' ≠ k) :
    mapFind? k (mapInsert k' v m) = mapFind? k m := by
  simp only [mapInsert, mapFind?, h, if_neg (fun hk => h hk)]
  exact mapFind?_filter_ne m h

theorem mapFind?_eq_none_iff {α β : Type} [DecidableEq α] (k : α)
    (m : List (α × β)) : mapFind? k m = none ↔ ∀ p ∈ m, p.1 ≠ k := by
  induction m with
  | nil => simp [mapFind?]
  | cons p t ih =>
    by_cases hk : p.1 = k
    · simp [mapFind?, hk]
    · simp [mapFind?, hk, ih]

theorem applyUpdates_nil {α β : Type} [DecidableEq α] (base : List (α × β)) :
    applyUpdates [] base = base := rfl

theorem applyUpdates_cons {α β : Type} [DecidableEq α] (p : α × β)
    (t : List (α × β)) (base : List (α × β)) :
    applyUpdates (p :: t) base = applyUpdates t (mapInsert p.1 p.2 base) := rfl

theorem applyUpdates_find_of_absent {α β : Type} [DecidableEq α] {k : α}
    (upd : List (α × β)) (base : List (α × β))
    (h : ∀ p ∈ upd, p.1 ≠ k) :
    mapFind? k (applyUpdates upd base) = mapFind? k base := by
  induction upd generalizing base with
  | nil => rfl
  | cons p t ih =>
    have hp : p.1 ≠ k := h p (List.mem_cons_self ..)
    have ht : ∀ q ∈ t, q.1 ≠ k := fun q hq => h q (List.mem_cons_of_mem _ hq)
    rw [applyUpdates_cons, ih _ ht, mapFind?_mapInsert_ne _ _ hp]

theorem applyUpdates_find_mapInsert {α β : Type} [DecidableEq α] (k : α)
    (v : β) (upd : List (α × β)) (base : List (α × β)) :
    mapFind? k (applyUpdates (mapInsert k v upd) base) = some v := by
  have hfilt : ∀ p ∈ upd.filter (fun p => p.1 ≠ k), p.1 ≠ k := by
    intro p hp
    have := List.of_mem_filter hp
    simpa using this
  rw [show applyUpdates (mapInsert k v upd) base
        = applyUpdates (upd.filter (fun p => p.1 ≠ k)) (mapInsert k v base) from rfl,
      applyUpdates_find_of_absent _ _ hfilt, mapFind?_mapInsert_self]

theorem pingLt_iff (a b : MgrPingTime) :
    pingLt a b = true ↔
      (a.pingtime < b.pingtime ∨
        (a.pingtime = b.pingtime ∧
          (a.from_osd < b.from_osd ∨
            (a.from_osd = b.from_osd ∧
              (a.to_osd < b.to_osd ∨
                (a.to_osd = b.to_osd ∧ a.back = true)))))) := by
  unfold pingLt
  constructor
  · intro h
    split_ifs at h with h1 h2 h3 h4 h5 h6
    · exact Or.inl h1
    · exact Or.inr ⟨by omega, Or.inl h3⟩
    · exact Or.inr ⟨by omega, Or.inr ⟨by omega, Or.inl h5⟩⟩
    · exact Or.inr ⟨by omega, Or.inr ⟨by omega, Or.inr ⟨by omega, h⟩⟩⟩
  · intro h
    split_ifs with h1 h2 h3 h4 h5 h6
    · rfl
    · exfalso
      rcases h with h | ⟨e1, _⟩ <;> omega
    · rfl
    · exfalso
      rcases h with h | ⟨e1, h⟩
      · omega
      · rcases h with h | ⟨e2, _⟩ <;> omega
    · rfl
    · exfalso
      rcases h with h | ⟨e1, h⟩
      · omega
      · rcases h with h | ⟨e2, h⟩
        · omega
        · rcases h with h | ⟨e3, _⟩ <;> omega
    · rcases h with h | ⟨e1, h⟩
      · exact absurd h h1
      · rcases h with h | ⟨e2, h⟩
        · exact absurd h h3
        · rcases h with h | ⟨e3, h⟩
          · exact absurd h h5
          · exact h

theorem pingLt_trans {a b c : MgrPingTime} (hab : pingLt a b = true)
    (hbc : pingLt b c = true) : pingLt a c = true := by
  rw [pingLt_iff] at hab hbc ⊢
  rcases hab with h | ⟨e1, h⟩
  · rcases hbc with h' | ⟨e1', _⟩
    · exact Or.inl (h.trans h')
    · exact Or.inl (e1' ▸ h)
  · rcases hbc with h' | ⟨e1', h'⟩
    · exact Or.inl (e1 ▸ h')
    · refine Or.inr ⟨e1.trans e1', ?_⟩
      rcases h with h | ⟨e2, h⟩
      · rcases h' with h' | ⟨e2', _⟩
        · exact Or.inl (h.trans h')
        · exact Or.inl (e2' ▸ h)
      · rcases h' with h' | ⟨e2', h'⟩
        · exact Or.inl (e2 ▸ h')
        · refine Or.inr ⟨e2.trans e2', ?_⟩
          rcases h with h | ⟨e3, h⟩
          · rcases h' with h' | ⟨e3', _⟩
            · exact Or.inl (h.trans h')
            · exact Or.inl (e3' ▸ h)
          · rcases h' with h' | ⟨e3', _⟩
            · exact Or.inl (e3 ▸ h')
            · exact Or.inr ⟨e3.trans e3', h⟩

theorem mem_insertSorted {y e : MgrPingTime} {l : List MgrPingTime}
    (h : y ∈ insertSorted e l) : y = e ∨ y ∈ l := by
  induction l with
  | nil => simpa [insertSorted] using h
  | cons x xs ih =>
    unfold insertSorted at h
    split_ifs at h with h1 h2
    · rcases List.mem_cons.mp h with h | h
      · exact Or.inl h
      · exact Or.inr h
    · rcases List.mem_cons.mp h with h | h
      · exact Or.inr (List.mem_cons.mpr (Or.inl h))
      · rcases ih h with h | h
        · exact Or.inl h
        · exact Or.inr (List.mem_cons.mpr (Or.inr h))
    · exact Or.inr h

theorem pairwise_insertSorted (e : MgrPingTime) (l : List MgrPingTime)
    (h : l.Pairwise (fun a b => pingLt a b = true)) :
    (insertSorted e l).Pairwise (fun a b => pingLt a b = true) := by
  induction l with
  | nil => simp [insertSorted]
  | cons x xs ih =>
    rcases List.pairwise_cons.mp h with ⟨hx, hxs⟩
    unfold insertSorted
    split_ifs with h1 h2
    · exact List.pairwise_cons.mpr
        ⟨fun y hy => by
          rcases List.mem_cons.mp hy with rfl | hy
          · exact h1
          · exact pingLt_trans h1 (hx y hy), h⟩
    · refine List.pairwise_cons.mpr ⟨fun y hy => ?_, ih hxs⟩
      rcases mem_insertSorted hy with rfl | hy
      · exact h2
      · exact hx y hy
    · exact h

theorem pairwise_buildSorted (l : List MgrPingTime) :
    (buildSorted l).Pairwise (fun a b => pingLt a b = true) := by
  have gen : ∀ (l : List MgrPingTime) (acc : List MgrPingTime),
      acc.Pairwise (fun a b => pingLt a b = true) →
      (l.foldl (fun acc e => insertSorted e acc) acc).Pairwise
        (fun a b => pingLt a b = true) := by
    intro l
    induction l with
    | nil => intro acc hacc; exact hacc
    | cons x xs ih =>
      intro acc hacc
      exact ih _ (pairwise_insertSorted x acc hacc)
  exact gen l [] (List.Pairwise.nil)

theorem mem_buildSorted {y : MgrPingTime} {l : List MgrPingTime}
    (h : y ∈ buildSorted l) : y ∈ l := by
  have gen : ∀ (l : List MgrPingTime) (acc : List MgrPingTime),
      y ∈ l.foldl (fun acc e => insertSorted e acc) acc → y ∈ acc ∨ y ∈ l := by
    intro l
    induction l with
    | nil => intro acc h; exact Or.inl h
    | cons x xs ih =>
      intro acc h
      rcases ih _ h with h | h
      · rcases mem_insertSorted h with rfl | h
        · exact Or.inr (List.mem_cons_self ..)
        · exact Or.inl h
      · exact Or.inr (List.mem_cons_of_mem _ h)
  rcases gen l [] h with h | h
  · cases h
  · exact h

theorem ingest_entry_pg_map (s : ClusterState) (p : PGT × PGStat) :
    (ingest_entry s p).pg_map = s.pg_map := by
  unfold ingest_entry
  split_ifs <;> try rfl
  cases mapFind? p.1 s.pg_map.pg_stat <;> (simp; try (split_ifs <;> rfl))

theorem ingest_entry_pools (s : ClusterState) (p : PGT × PGStat) :
    (ingest_entry s p).existing_pools = s.existing_pools := by
  unfold ingest_entry
  split_ifs <;> try rfl
  cases mapFind? p.1 s.pg_map.pg_stat <;> (simp; try (split_ifs <;> rfl))

theorem ingest_entry_osd_updates (s : ClusterState) (p : PGT × PGStat) :
    (ingest_entry s p).pending_inc.osd_stat_updates
        = s.pending_inc.osd_stat_updates
      ∧ (ingest_entry s p).pending_inc.osd_epochs = s.pending_inc.osd_epochs
      ∧ (ingest_entry s p).pending_inc.version = s.pending_inc.version := by
  unfold ingest_entry
  split_ifs <;> try exact ⟨rfl, rfl, rfl⟩
  cases mapFind? p.1 s.pg_map.pg_stat <;> (simp; try (split_ifs <;> exact ⟨rfl, rfl, rfl⟩))

theorem foldl_ingest_frame (l : List (PGT × PGStat)) (s : ClusterState) :
    (l.foldl ingest_entry s).pg_map = s.pg_map
      ∧ (l.foldl ingest_entry s).existing_pools = s.existing_pools
      ∧ (l.foldl ingest_entry s).pending_inc.osd_stat_updates
          = s.pending_inc.osd_stat_updates
      ∧ (l.foldl ingest_entry s).pending_inc.osd_epochs
          = s.pending_inc.osd_epochs
      ∧ (l.foldl ingest_entry s).pending_inc.version = s.pending_inc.version := by
  induction l generalizing s with
  | nil => exact ⟨rfl, rfl, rfl, rfl, rfl⟩
  | cons p t ih =>
    have h1 := ingest_entry_pg_map s p
    have h2 := ingest_entry_pools s p
    have h3 := ingest_entry_osd_updates s p
    have := ih (ingest_entry s p)
    simp only [List.foldl_cons]
    exact ⟨this.1.trans h1, this.2.1.trans h2,
      this.2.2.1.trans h3.1, this.2.2.2.1.trans h3.2.1,
      this.2.2.2.2.trans h3.2.2⟩

theorem ingest_pgstats_pg_map (s : ClusterState) (r : MPGStats) :
    (ingest_pgstats s r).pg_map = s.pg_map :=
  (foldl_ingest_frame r.pg_stat _).1

theorem ingest_pgstats_pools (s : ClusterState) (r : MPGStats) :
    (ingest_pgstats s r).existing_pools = s.existing_pools :=
  (foldl_ingest_frame r.pg_stat _).2.1

theorem ingest_pgstats_osd_updates (s : ClusterState) (r : MPGStats) :
    (ingest_pgstats s r).pending_inc.osd_stat_updates
      = mapInsert r.from_osd r.osd_stat s.pending_inc.osd_stat_updates :=
  (foldl_ingest_frame r.pg_stat _).2.2.1

theorem ingest_pgstats_osd_epochs (s : ClusterState) (r : MPGStats) :
    (ingest_pgstats s r).pending_inc.osd_epochs
      = mapInsert r.from_osd r.epoch s.pending_inc.osd_epochs :=
  (foldl_ingest_frame r.pg_stat _).2.2.2.1

theorem foldl_ingest_empty_filter (l : List (PGT × PGStat)) (s : ClusterState)
    (h : s.existing_pools = []) :
    (l.foldl ingest_entry s).pending_inc.pg_stat_updates
      = s.pending_inc.pg_stat_updates := by
  induction l generalizing s with
  | nil => rfl
  | cons p t ih =>
    have hstep : ingest_entry s p = s := by
      unfold ingest_entry
      rw [h]
      rfl
    simp only [List.foldl_cons, hstep]
    exact ih s h

theorem update_delta_stats_version (s : ClusterState) :
    (update_delta_stats s).pg_map.version = s.pg_map.version + 1 := rfl

theorem notify_osdmap_version (f g : TopoCheck) (s : ClusterState)
    (m : OSDMap) :
    (notify_osdmap f g s m).pg_map.version = s.pg_map.version + 1 := rfl

theorem ingest_pgstats_version (s : ClusterState) (r : MPGStats) :
    (ingest_pgstats s r).pg_map.version = s.pg_map.version := by
  rw [ingest_pgstats_pg_map]

/-- C10: the less-than relation used to order latency-rank entries is not
irreflexive: for every entry `e` with `back = true`, `e < e` evaluates to
`true`, because when both operands agree on `pingtime`, `from` and `to`
the comparison returns the left operand's `back` flag. -/
theorem c10_pingLt_not_irreflexive (e : MgrPingTime) (h : e.back = true) :
    pingLt e e = true :=
  (pingLt_iff e e).mpr (Or.inr ⟨rfl, Or.inr ⟨rfl, Or.inr ⟨rfl, h⟩⟩⟩)

theorem c10_witness :
    pingLt
      { pingtime := 3, from_osd := 1, to_osd := 2, back := true,
        times := ⟨3, 2, 1⟩, mins := ⟨1, 1, 1⟩, maxs := ⟨3, 3, 3⟩, last := 2 }
      { pingtime := 3, from_osd := 1, to_osd := 2, back := true,
        times := ⟨3, 2, 1⟩, mins := ⟨1, 1, 1⟩, maxs := ⟨3, 3, 3⟩, last := 2 }
      = true :=
  c10_pingLt_not_irreflexive _ rfl

theorem ingest_entry_drop (s : ClusterState) (p : PGT × PGStat)
    (hpool : p.1.pool ∈ s.existing_pools) (q : PGStat)
    (hq : mapFind? p.1 s.pg_map.pg_stat = some q)
    (hgt : vpGt q.get_version_pair p.2.get_version_pair = true) :
    ingest_entry s p = s := by
  have hcount : ¬ s.existing_pools.count p.1.pool = 0 := by
    rw [List.count_eq_zero]
    simpa using hpool
  unfold ingest_entry
  rw [if_neg hcount, hq]
  simp [hgt]

theorem ingest_entry_stage (s : ClusterState) (p : PGT × PGStat)
    (hpool : p.1.pool ∈ s.existing_pools)
    (hfresh : ∀ q, mapFind? p.1 s.pg_map.pg_stat = some q →
      vpGt q.get_version_pair p.2.get_version_pair = false) :
    ingest_entry s p = { s with pending_inc := { s.pending_inc with
      pg_stat_updates := mapInsert p.1 p.2 s.pending_inc.pg_stat_updates } } := by
  have hcount : ¬ s.existing_pools.count p.1.pool = 0 := by
    rw [List.count_eq_zero]
    simpa using hpool
  unfold ingest_entry
  rw [if_neg hcount]
  rcases hq : mapFind? p.1 s.pg_map.pg_stat with _ | q
  · rfl
  · simp [hfresh q hq]

/-- C1 (amended): for a report entry that passes the existence filter, the
entry is dropped exactly when the aggregate already holds a record for the
resource whose version-pair is STRICTLY GREATER than the incoming one; an
entry whose version-pair equals (or is exceeded by) the stored record's is
staged, overwriting the staged slot for that resource. -/
theorem c1_stale_drop_iff_strictly_newer
    (s : ClusterState) (r : MPGStats) (pgid : PGT) (st : PGStat)
    (hr : r.pg_stat = [(pgid, st)])
    (hpool : pgid.pool ∈ s.existing_pools) :
    ((∀ q, mapFind? pgid s.pg_map.pg_stat = some q →
        vpGt q.get_version_pair st.get_version_pair = false) →
      (ingest_pgstats s r).pending_inc.pg_stat_updates
        = mapInsert pgid st s.pending_inc.pg_stat_updates) ∧
    (∀ q, mapFind? pgid s.pg_map.pg_stat = some q →
      vpGt q.get_version_pair st.get_version_pair = true →
      (ingest_pgstats s r).pending_inc.pg_stat_updates
        = s.pending_inc.pg_stat_updates) := by
  unfold ingest_pgstats
  rw [hr]
  simp only [List.foldl_cons, List.foldl_nil]
  constructor
  · intro hfresh
    rw [ingest_entry_stage _ _ (by simpa using hpool) (by simpa using hfresh)]
    rfl
  · intro q hq hgt
    rw [ingest_entry_drop _ _ (by simpa using hpool) q (by simpa using hq)
      (by simpa using hgt)]
    rfl

/-- C1 counterexample: the stored and incoming version-pairs are equal, so
per the claim the entry should be dropped; the code stages it into the
pending delta instead. -/
theorem c1_equal_version_pair_staged_cex :
    (mapFind? ⟨0, 0⟩ sC1.pg_map.pg_stat).map PGStat.get_version_pair
        = some (5, 1)
      ∧ PGStat.get_version_pair ⟨5, 1, 7⟩ = (5, 1)
      ∧ (ingest_pgstats sC1 rC1).pending_inc.pg_stat_updates
          = [(⟨0, 0⟩, ⟨5, 1, 7⟩)] := by
  refine ⟨rfl, rfl, ?_⟩
  decide

theorem c1_witness :
    rC1.pg_stat = [(⟨0, 0⟩, ⟨5, 1, 7⟩)]
      ∧ (0 : Nat) ∈ sC1.existing_pools
      ∧ (ingest_pgstats sC1 rC1).pending_inc.pg_stat_updates
          = mapInsert ⟨0, 0⟩ ⟨5, 1, 7⟩ sC1.pending_inc.pg_stat_updates :=
  ⟨rfl, by decide,
    (c1_stale_drop_iff_strictly_newer sC1 rC1 ⟨0, 0⟩ ⟨5, 1, 7⟩ rfl
      (by decide)).1 (fun q hq => by
        have hqe : (⟨5, 1, 0⟩ : PGStat) = q := by
          simpa [sC1, mapFind?] using hq
        subst hqe
        decide)⟩

/-- C9: on every `ingest_pgstats` call the reporter-level summary is staged
into the pending delta keyed by the reporter id unconditionally; in
particular on the freshly constructed state (empty existence filter) every
per-PG entry is dropped while the reporter summary is still staged. -/
theorem c9_reporter_summary_unconditional (s : ClusterState) (r : MPGStats) :
    (ingest_pgstats s r).pending_inc.osd_stat_updates
        = mapInsert r.from_osd r.osd_stat s.pending_inc.osd_stat_updates
      ∧ (ingest_pgstats s r).pending_inc.osd_epochs
        = mapInsert r.from_osd r.epoch s.pending_inc.osd_epochs
      ∧ (ingest_pgstats ClusterState.init r).pending_inc.pg_stat_updates = []
      ∧ (ingest_pgstats ClusterState.init r).pending_inc.osd_stat_updates
        = [(r.from_osd, r.osd_stat)] := by
  refine ⟨ingest_pgstats_osd_updates s r, ingest_pgstats_osd_epochs s r, ?_, ?_⟩
  · exact foldl_ingest_empty_filter r.pg_stat _ rfl
  · rw [ingest_pgstats_osd_updates]
    rfl

/-- C4: `aggregate.version` increases by exactly 1 per applied delta: for
any operation sequence, the final version is the initial version plus the
number of delta-applying operations (`update_delta_stats` and
`notify_osdmap`), so the version never decreases, skips or repeats along
any commit sequence. -/
theorem c4_version_increment (f g : TopoCheck) (ops : List Op)
    (s : ClusterState) :
    (runOps f g s ops).pg_map.version = s.pg_map.version + countCommits ops := by
  induction ops generalizing s with
  | nil => simp [runOps, countCommits]
  | cons op t ih =>
    have hrun : runOps f g s (op :: t) = runOps f g (stepOp f g s op) t := rfl
    rw [hrun, ih]
    cases op with
    | stats r =>
      simp [stepOp, ingest_pgstats_version, countCommits, List.filter_cons]
    | topo m =>
      simp [stepOp, notify_osdmap_version, countCommits, List.filter_cons]
      omega
    | commit =>
      simp [stepOp, update_delta_stats_version, countCommits, List.filter_cons]
      omega

/-- C5 (amended): `notify_osdmap` rebuilds the existence filter, stages
topology-driven updates, and itself applies the pending delta within the
same call: after it returns, `aggregate.version` is the previous version
plus one, the staged reporter updates are folded into the aggregate, and
the pending delta is reset to empty. -/
theorem c5_notify_osdmap_commits (f g : TopoCheck) (s : ClusterState)
    (m : OSDMap) :
    (notify_osdmap f g s m).pg_map.version = s.pg_map.version + 1
      ∧ (notify_osdmap f g s m).pending_inc = ({} : Incremental)
      ∧ (notify_osdmap f g s m).existing_pools = m.pools.map Prod.fst
      ∧ (notify_osdmap f g s m).pg_map.osd_stat
        = applyUpdates s.pending_inc.osd_stat_updates s.pg_map.osd_stat :=
  ⟨rfl, rfl, rfl, rfl⟩

/-- C5 counterexample: after `notify_osdmap` returns (and before any
separate commit) `aggregate.version` has moved from 0 to 1 and the staged
reporter statistics have been folded into the aggregate, contradicting the
claim that both are unchanged until a separate explicit commit. -/
theorem c5_version_changed_cex :
    sC5.pg_map.version = 0
      ∧ (notify_osdmap topoCheckId topoCheckId sC5 mC5).pg_map.version = 1
      ∧ sC5.pg_map.osd_stat = []
      ∧ (notify_osdmap topoCheckId topoCheckId sC5 mC5).pg_map.osd_stat
        = [(3, ⟨[], 5⟩)] := by
  refine ⟨rfl, rfl, rfl, ?_⟩
  decide

theorem vpGt_asymm {a b : Nat × Nat} (h : vpGt a b = true) :
    vpGt b a = false := by
  simp only [vpGt, Bool.or_eq_true, Bool.and_eq_true, decide_eq_true_eq,
    Bool.or_eq_false_iff, Bool.and_eq_false_iff, decide_eq_false_iff_not] at h ⊢
  omega

theorem ingest_pgstats_single_stage (s : ClusterState) (r : MPGStats)
    (pgid : PGT) (st : PGStat) (hr : r.pg_stat = [(pgid, st)])
    (hpool : pgid.pool ∈ s.existing_pools)
    (hfresh : ∀ q, mapFind? pgid s.pg_map.pg_stat = some q →
      vpGt q.get_version_pair st.get_version_pair = false) :
    (ingest_pgstats s r).pending_inc.pg_stat_updates
      = mapInsert pgid st s.pending_inc.pg_stat_updates := by
  unfold ingest_pgstats
  rw [hr]
  simp only [List.foldl_cons, List.foldl_nil]
  rw [ingest_entry_stage _ _ (by simpa using hpool) (by simpa using hfresh)]
  rfl

theorem ingest_pgstats_single_drop (s : ClusterState) (r : MPGStats)
    (pgid : PGT) (st : PGStat) (hr : r.pg_stat = [(pgid, st)])
    (q : PGStat) (hq : mapFind? pgid s.pg_map.pg_stat = some q)
    (hgt : vpGt q.get_version_pair st.get_version_pair = true) :
    (ingest_pgstats s r).pending_inc.pg_stat_updates
      = s.pending_inc.pg_stat_updates := by
  unfold ingest_pgstats
  rw [hr]
  simp only [List.foldl_cons, List.foldl_nil]
  by_cases hpool : pgid.pool ∈ s.existing_pools
  · rw [ingest_entry_drop _ _ (by simpa using hpool) q (by simpa using hq)
      (by simpa using hgt)]
    rfl
  · have hcount : List.count pgid.pool s.existing_pools = 0 := by
      rw [List.count_eq_zero]
      simpa using hpool
    unfold ingest_entry
    rw [if_pos (by simpa using hcount)]
    rfl

theorem ingest_pgstats_single_filtered (s : ClusterState) (r : MPGStats)
    (pgid : PGT) (st : PGStat) (hr : r.pg_stat = [(pgid, st)])
    (hpool : pgid.pool ∉ s.existing_pools) :
    (ingest_pgstats s r).pending_inc.pg_stat_updates
      = s.pending_inc.pg_stat_updates := by
  unfold ingest_pgstats
  rw [hr]
  simp only [List.foldl_cons, List.foldl_nil]
  have hcount : List.count pgid.pool s.existing_pools = 0 := by
    rw [List.count_eq_zero]
    simpa using hpool
  unfold ingest_entry
  rw [if_pos (by simpa using hcount)]
  rfl

theorem update_delta_stats_pg_stat (s : ClusterState) :
    (update_delta_stats s).pg_map.pg_stat
      = applyUpdates s.pending_inc.pg_stat_updates s.pg_map.pg_stat := rfl

theorem update_delta_stats_pools (s : ClusterState) :
    (update_delta_stats s).existing_pools = s.existing_pools := rfl

theorem update_delta_stats_pending (s : ClusterState) :
    (update_delta_stats s).pending_inc = ({} : Incremental) := rfl

theorem update_delta_find_of_pending_none (s : ClusterState) (pgid : PGT)
    (h : mapFind? pgid s.pending_inc.pg_stat_updates = none) :
    mapFind? pgid (update_delta_stats s).pg_map.pg_stat
      = mapFind? pgid s.pg_map.pg_stat := by
  rw [update_delta_stats_pg_stat]
  exact applyUpdates_find_of_absent _ _ ((mapFind?_eq_none_iff _ _).mp h)

theorem update_delta_find_of_staged (s : ClusterState) (pgid : PGT)
    (v : PGStat) (rest : List (PGT × PGStat))
    (h : s.pending_inc.pg_stat_updates = mapInsert pgid v rest) :
    mapFind? pgid (update_delta_stats s).pg_map.pg_stat = some v := by
  rw [update_delta_stats_pg_stat, h]
  exact applyUpdates_find_mapInsert _ _ _ _

/-- C3: a report entry whose parent pool is absent from the filter rebuilt
by the most recent `notify_osdmap` is dropped regardless of version-pair
(nothing is staged for it), so a resource absent from the aggregate stays
absent through the next commit; and the rebuilt filter holds exactly the
pool ids of that snapshot. -/
theorem c3_existence_filter (f g : TopoCheck) (s : ClusterState) (m : OSDMap)
    (r : MPGStats) (pgid : PGT) (st : PGStat)
    (hr : r.pg_stat = [(pgid, st)])
    (hpool : pgid.pool ∉ m.pools.map Prod.fst) :
    (∀ p, p ∈ (notify_osdmap f g s m).existing_pools
        ↔ p ∈ m.pools.map Prod.fst)
      ∧ (ingest_pgstats (notify_osdmap f g s m) r).pending_inc.pg_stat_updates
        = []
      ∧ (mapFind? pgid (notify_osdmap f g s m).pg_map.pg_stat = none →
          mapFind? pgid (update_delta_stats
              (ingest_pgstats (notify_osdmap f g s m) r)).pg_map.pg_stat
            = none) := by
  set s1 := notify_osdmap f g s m with hs1
  have hpools : s1.existing_pools = m.pools.map Prod.fst := rfl
  have hpend : s1.pending_inc.pg_stat_updates = [] := rfl
  have hdrop : (ingest_pgstats s1 r).pending_inc.pg_stat_updates = [] := by
    rw [ingest_pgstats_single_filtered s1 r pgid st hr
      (by rw [hpools]; exact hpool), hpend]
  refine ⟨fun p => by rw [hpools], hdrop, fun habs => ?_⟩
  rw [update_delta_find_of_pending_none _ _ (by rw [hdrop]; rfl),
    ingest_pgstats_pg_map]
  exact habs

theorem c3_witness :
    (fun (r : MPGStats) => r.pg_stat = [(⟨7, 0⟩, ⟨1, 1, 0⟩)])
        ⟨2, 4, ⟨[], 0⟩, [(⟨7, 0⟩, ⟨1, 1, 0⟩)]⟩
      ∧ (7 : Nat) ∉ (OSDMap.mk [(1, 0)]).pools.map Prod.fst
      ∧ (ingest_pgstats
          (notify_osdmap topoCheckId topoCheckId ClusterState.init
            (OSDMap.mk [(1, 0)]))
          ⟨2, 4, ⟨[], 0⟩, [(⟨7, 0⟩, ⟨1, 1, 0⟩)]⟩).pending_inc.pg_stat_updates
        = [] := by
  refine ⟨rfl, by decide, ?_⟩
  exact (c3_existence_filter topoCheckId topoCheckId ClusterState.init
    (OSDMap.mk [(1, 0)]) ⟨2, 4, ⟨[], 0⟩, [(⟨7, 0⟩, ⟨1, 1, 0⟩)]⟩
    ⟨7, 0⟩ ⟨1, 1, 0⟩ rfl (by decide)).2.1

/-- C2 (amended): version-pair ordering makes delivery order irrelevant
when a commit separates the two ingests: with a newer report `a` and an
older report `b` for the same resource, ingest-commit of each in either
order leaves the committed record equal to `a`, the same as ingesting only
`a`.  (Within a single uncommitted delta cycle the staleness check
compares only against the committed aggregate, so there the LAST arrival
among admitted entries wins — see the counterexample.) -/
theorem c2_commit_separated_newest_wins
    (s : ClusterState) (pgid : PGT) (a b : PGStat) (ra rb : MPGStats)
    (hra : ra.pg_stat = [(pgid, a)]) (hrb : rb.pg_stat = [(pgid, b)])
    (hpool : pgid.pool ∈ s.existing_pools)
    (hpend : mapFind? pgid s.pending_inc.pg_stat_updates = none)
    (hfresh : ∀ q, mapFind? pgid s.pg_map.pg_stat = some q →
        vpGt q.get_version_pair a.get_version_pair = false)
    (hab : vpGt a.get_version_pair b.get_version_pair = true) :
    mapFind? pgid (update_delta_stats (ingest_pgstats
        (update_delta_stats (ingest_pgstats s ra)) rb)).pg_map.pg_stat = some a
      ∧ mapFind? pgid (update_delta_stats (ingest_pgstats
          (update_delta_stats (ingest_pgstats s rb)) ra)).pg_map.pg_stat = some a
      ∧ mapFind? pgid
          (update_delta_stats (ingest_pgstats s ra)).pg_map.pg_stat = some a := by
  have honly : mapFind? pgid
      (update_delta_stats (ingest_pgstats s ra)).pg_map.pg_stat = some a := by
    apply update_delta_find_of_staged _ _ _ s.pending_inc.pg_stat_updates
    exact ingest_pgstats_single_stage s ra pgid a hra hpool hfresh
  refine ⟨?_, ?_, honly⟩
  · -- a first, commit, then b (stale): b is rejected against the committed a
    set s2 := update_delta_stats (ingest_pgstats s ra) with hs2
    have hpend2 : (ingest_pgstats s2 rb).pending_inc.pg_stat_updates
        = s2.pending_inc.pg_stat_updates :=
      ingest_pgstats_single_drop s2 rb pgid b hrb a honly hab
    rw [update_delta_find_of_pending_none _ _ (by rw [hpend2]; rfl),
      ingest_pgstats_pg_map]
    exact honly
  · -- b first, commit, then a: a supersedes whatever the b-cycle committed
    set s3 := ingest_pgstats s rb with hs3
    set s4 := update_delta_stats s3 with hs4
    have hpool4 : pgid.pool ∈ s4.existing_pools := by
      rw [hs4, update_delta_stats_pools, hs3, ingest_pgstats_pools]
      exact hpool
    have hfresh4 : ∀ q, mapFind? pgid s4.pg_map.pg_stat = some q →
        vpGt q.get_version_pair a.get_version_pair = false := by
      rcases hq0 : mapFind? pgid s.pg_map.pg_stat with _ | q0
      · -- nothing committed for the resource: b was staged, the record is b
        have hstage : s3.pending_inc.pg_stat_updates
            = mapInsert pgid b s.pending_inc.pg_stat_updates :=
          ingest_pgstats_single_stage s rb pgid b hrb hpool
            (fun q hq => by rw [hq0] at hq; cases hq)
        have hb : mapFind? pgid s4.pg_map.pg_stat = some b :=
          update_delta_find_of_staged s3 pgid b _ hstage
        intro q hq
        rw [hb] at hq
        cases hq
        exact vpGt_asymm hab
      · by_cases hq0b : vpGt q0.get_version_pair b.get_version_pair = true
        · -- b itself was stale: the committed record for the resource is q0
          have hdropb : s3.pending_inc.pg_stat_updates
              = s.pending_inc.pg_stat_updates :=
            ingest_pgstats_single_drop s rb pgid b hrb q0 hq0 hq0b
          have hfind4 : mapFind? pgid s4.pg_map.pg_stat = some q0 := by
            rw [hs4, update_delta_find_of_pending_none s3 pgid
              (by rw [hdropb]; exact hpend), hs3, ingest_pgstats_pg_map]
            exact hq0
          intro q hq
          rw [hfind4] at hq
          cases hq
          exact hfresh q0 hq0
        · -- b passed against q0 and was committed; a is newer than b
          have hstage : s3.pending_inc.pg_stat_updates
              = mapInsert pgid b s.pending_inc.pg_stat_updates :=
            ingest_pgstats_single_stage s rb pgid b hrb hpool
              (fun q hq => by
                rw [hq0] at hq
                cases hq
                simpa using hq0b)
          have hb : mapFind? pgid s4.pg_map.pg_stat = some b :=
            update_delta_find_of_staged s3 pgid b _ hstage
          intro q hq
          rw [hb] at hq
          cases hq
          exact vpGt_asymm hab
    apply update_delta_find_of_staged _ _ _ s4.pending_inc.pg_stat_updates
    exact ingest_pgstats_single_stage s4 ra pgid a hra hpool4 hfresh4

/-- C2 counterexample: both reports ingested within ONE delta cycle (no
intervening commit), then committed.  Newest-first delivery commits the
OLDER record (5,1), oldest-first commits the newer (5,2): the outcome
depends on delivery order and differs from ingesting only the newest. -/
theorem c2_same_cycle_order_dependent_cex :
    mapFind? ⟨0, 3⟩ (update_delta_stats
        (ingest_pgstats (ingest_pgstats sC2 raC2) rbC2)).pg_map.pg_stat
      = some ⟨5, 1, 2⟩
      ∧ mapFind? ⟨0, 3⟩ (update_delta_stats
          (ingest_pgstats (ingest_pgstats sC2 rbC2) raC2)).pg_map.pg_stat
        = some ⟨5, 2, 1⟩
      ∧ (⟨5, 1, 2⟩ : PGStat) ≠ ⟨5, 2, 1⟩ := by
  refine ⟨?_, ?_, by decide⟩ <;> decide

theorem c2_witness :
    mapFind? ⟨0, 3⟩ (update_delta_stats (ingest_pgstats
        (update_delta_stats (ingest_pgstats sC2 raC2)) rbC2)).pg_map.pg_stat
      = some ⟨5, 2, 1⟩
      ∧ mapFind? ⟨0, 3⟩ (update_delta_stats (ingest_pgstats
          (update_delta_stats (ingest_pgstats sC2 rbC2)) raC2)).pg_map.pg_stat
        = some ⟨5, 2, 1⟩ := by
  have h := c2_commit_separated_newest_wins sC2 ⟨0, 3⟩ ⟨5, 2, 1⟩ ⟨5, 1, 2⟩
    raC2 rbC2 rfl rfl (by decide) rfl
    (fun q hq => by simp [sC2, mapFind?] at hq) (by decide)
  exact ⟨h.1, h.2.1⟩

theorem mem_peerEntries {y : MgrPingTime} {i v j : Int} {pp : PeerPing}
    (h : y ∈ peerEntries i v j pp) :
    y = mkBackItem i j pp
      ∨ (y = mkFrontItem i j pp ∧ pp.front_last ≠ 0) := by
  unfold peerEntries at h
  rcases List.mem_append.mp h with h | h
  · split_ifs at h
    · exact Or.inl (List.mem_singleton.mp h)
    · cases h
  · split_ifs at h with h1 h2
    · cases h
    · exact Or.inr ⟨List.mem_singleton.mp h, h1⟩
    · cases h

theorem mem_collectItems {y : MgrPingTime} {os : List (Int × OsdStat)}
    {v : Int} (h : y ∈ collectItems os v) :
    ∃ i st j pp, (i, st) ∈ os ∧ (j, pp) ∈ st.hb_pingtime
      ∧ y ∈ peerEntries i v j pp := by
  unfold collectItems at h
  rcases List.mem_flatten.mp h with ⟨inner, hinner, hy⟩
  rcases List.mem_map.mp hinner with ⟨p, hp, rfl⟩
  rcases List.mem_flatten.mp hy with ⟨inner2, hinner2, hy2⟩
  rcases List.mem_map.mp hinner2 with ⟨q, hq, rfl⟩
  exact ⟨p.1, p.2, q.1, q.2, hp, hq, hy2⟩

theorem mem_dump_entries {y : MgrPingTime} {os : List (Int × OsdStat)}
    {v : Int} (h : y ∈ dump_entries os v) : y ∈ collectItems os v := by
  unfold dump_entries at h
  exact mem_buildSorted (List.mem_reverse.mp h)

/-- C6 (amended): the emitted entries are ordered descending by rank key;
a tie on the rank key is broken by DESCENDING `from_reporter`, then
DESCENDING `to_reporter`, and on a full tie the front entry precedes the
back entry (the `std::set` ascending order is reversed wholesale, flipping
every tie-break as well as the primary key). -/
theorem c6_output_order (os : List (Int × OsdStat)) (v : Int) :
    (dump_entries os v).Pairwise (fun a b =>
      b.pingtime < a.pingtime ∨
        (b.pingtime = a.pingtime ∧
          (b.from_osd < a.from_osd ∨
            (b.from_osd = a.from_osd ∧
              (b.to_osd < a.to_osd ∨
                (b.to_osd = a.to_osd ∧ b.back = true)))))) := by
  unfold dump_entries
  rw [List.pairwise_reverse]
  exact (pairwise_buildSorted (collectItems os v)).imp
    (fun hab => (pingLt_iff _ _).mp hab)

/-- C6 counterexample: on a rank-key tie the emitted order is
`from = 2` before `from = 1` — descending, not ascending as claimed, so
the claimed ordering relation fails on the actual output. -/
theorem c6_ascending_tiebreak_cex :
    (dump_entries osC6 0).map (fun e => e.from_osd) = [2, 1]
      ∧ ¬ (dump_entries osC6 0).Pairwise (fun a b =>
          a.pingtime > b.pingtime ∨
            (a.pingtime = b.pingtime ∧
              (a.from_osd < b.from_osd ∨
                (a.from_osd = b.from_osd ∧
                  (a.to_osd < b.to_osd ∨
                    (a.to_osd = b.to_osd ∧ a.back = true)))))) := by
  constructor
  · decide
  · intro h
    have hlist : dump_entries osC6 0
        = [mkBackItem 2 5 ppC6, mkBackItem 1 5 ppC6] := by decide
    rw [hlist] at h
    rcases List.pairwise_cons.mp h with ⟨hrel, _⟩
    have := hrel _ (List.mem_cons_self ..)
    revert this
    decide

/-- C7: a front-interface entry is emitted only when its last sample is
nonzero (every front entry in the output has `last ≠ 0`), while a
back-interface entry is never suppressed by its last sample: with
`back_last = 0` the back entry is still produced, subject only to the
threshold filter. -/
theorem c7_front_suppression :
    (∀ (os : List (Int × OsdStat)) (v : Int) (e : MgrPingTime),
        e ∈ dump_entries os v → e.back = false → e.last ≠ 0)
      ∧ (∀ (i v j : Int) (pp : PeerPing), pp.back_last = 0 →
          (v = 0 ∨ v ≤ (backPing pp : Int)) →
          mkBackItem i j pp ∈ peerEntries i v j pp) := by
  constructor
  · intro os v e he hfront
    rcases mem_collectItems (mem_dump_entries he) with ⟨i, st, j, pp, _, _, hpe⟩
    rcases mem_peerEntries hpe with rfl | ⟨rfl, hlast⟩
    · simp [mkBackItem] at hfront
    · simpa [mkFrontItem] using hlast
  · intro i v j pp _ hthr
    unfold peerEntries
    refine List.mem_append.mpr (Or.inl ?_)
    rw [if_pos hthr]
    exact List.mem_singleton.mpr rfl

theorem c7_witness :
    (mkFrontItem 1 2 ppC7 ∈ dump_entries [(1, ⟨[(2, ppC7)], 0⟩)] 0)
      ∧ ((mkFrontItem 1 2 ppC7).back = false)
      ∧ (mkFrontItem 1 2 ppC7).last ≠ 0
      ∧ ppC7.back_last = 0
      ∧ mkBackItem 1 2 ppC7 ∈ peerEntries 1 0 2 ppC7 := by
  refine ⟨by decide, rfl, ?_, rfl, ?_⟩
  · exact c7_front_suppression.1 [(1, ⟨[(2, ppC7)], 0⟩)] 0
      (mkFrontItem 1 2 ppC7) (by decide) rfl
  · exact c7_front_suppression.2 1 0 2 ppC7 rfl (Or.inl rfl)

/-- C8 (amended): with the threshold parameter absent, the threshold
defaults to the configured warning threshold, and when that is zero it is
derived as heartbeat grace times the configured fraction converted to
microseconds; a negative input is clamped to zero and the report is still
emitted.  An UNPARSABLE input, however, raises `bad_cmd_get`: the hook
catches it and emits the exception text instead of a report (while still
returning success). -/
theorem c8_threshold_resolution (cfg : DumpConfig)
    (os : List (Int × OsdStat)) :
    (asok_dump_osd_network cfg .absent os
        = .ok { threshold := if defaultThreshold cfg < 0 then 0
                             else defaultThreshold cfg,
                entries := dump_entries os
                  (if defaultThreshold cfg < 0 then 0
                   else defaultThreshold cfg) })
      ∧ (cfg.mon_warn_on_slow_ping_time ≠ 0 →
          defaultThreshold cfg = (cfg.mon_warn_on_slow_ping_time : Int))
      ∧ (cfg.mon_warn_on_slow_ping_time = 0 →
          defaultThreshold cfg
            = ratTrunc ((cfg.osd_heartbeat_grace : Rat)
                * (1000000 * cfg.mon_warn_on_slow_ping_frac)))
      ∧ (∀ v : Int, v < 0 →
          asok_dump_osd_network cfg (.given v) os
            = .ok { threshold := 0, entries := dump_entries os 0 })
      ∧ (∀ msg, clusterSocketHook_call cfg (.badtype msg) os
          = (.errtext msg, true)) := by
  refine ⟨rfl, ?_, ?_, ?_, fun msg => rfl⟩
  · intro h
    unfold defaultThreshold
    rw [if_neg (by simpa using h)]
  · intro h
    simp [defaultThreshold, h]
  · intro v hv
    unfold asok_dump_osd_network cmd_getval_int
    simp [hv]

/-- C8 counterexample: an unparsable threshold argument does NOT produce a
report with a zero threshold — the hook output is the exception text and
no report is emitted, contradicting the claim. -/
theorem c8_badtype_no_report_cex :
    (clusterSocketHook_call cfgC8 (.badtype "bad value") []).1
        = .errtext "bad value"
      ∧ ((clusterSocketHook_call cfgC8 (.badtype "bad value") []).1).isReport
        = false :=
  ⟨rfl, rfl⟩

theorem c8_witness :
    defaultThreshold cfgC8
        = ratTrunc ((cfgC8.osd_heartbeat_grace : Rat)
            * (1000000 * cfgC8.mon_warn_on_slow_ping_frac))
      ∧ asok_dump_osd_network cfgC8 (.given (-3)) []
        = .ok { threshold := 0, entries := dump_entries [] 0 }
      ∧ clusterSocketHook_call cfgC8 (.badtype "bad") []
        = (.errtext "bad", true) := by
  have h := c8_threshold_resolution cfgC8 []
  exact ⟨h.2.2.1 rfl, h.2.2.2.1 (-3) (by decide), h.2.2.2.2 "bad"⟩
